import Mathlib

/-
Verification of the crossbeam overlap escalation engine.

The definitions below are a shallow embedding of the Python source:
  - scripts/overlap_utils.py : scoring (opportunity_score, partner_score,
    OverlapQualifier.calculate_priority_score, should_process_overlap)
  - main.py : candidate selection (get_best_overlap), single-flight trigger
    (trigger_overlap_processing) and the escalation runner
    (send_messages_with_gap).

Python floats are modelled as rationals; Python dict lookups with a default
(`record.get(key, 0)`) are modelled as `Option` fields read with `getD`.
-/

namespace Crossbeam

/-- One crossbeam record, as the dictionaries produced by `load_crossbeam_data`.
A `none` attribute models a missing key, which `record.get(key, default)`
replaces by the default. -/
structure CrossbeamRecord where
  id : Option String
  opportunity_name : Option String
  partner_name : Option String
  opportunity_size_score : Option ℚ
  relationship_status_score : Option ℚ
  engagement_score_score : Option ℚ
  opportunity_stage_score : Option ℚ
  winnability_score : Option ℚ
  relationship_strength_score : Option ℚ
  recent_deal_support_score : Option ℚ
  stickiness_score : Option ℚ
  logo_potential : Option Bool
  partner_champion_flagged : Option Bool
deriving DecidableEq

/-- The weights `get_weights('opportunity')` returns (already divided by 100);
a key absent from the dict reads as 0, so an arbitrary rational per key covers
every configured weight set. -/
structure OpportunityWeights where
  opportunity_size : ℚ
  relationship_status : ℚ
  engagement_score : ℚ
  opportunity_stage : ℚ
  winnability : ℚ
deriving DecidableEq

/-- The weights `get_weights('partner')` returns.  The key names mirror the
exact strings looked up in `partner_score`. -/
structure PartnerWeights where
  relationship_strength_score : ℚ
  recent_deal_support : ℚ
  stickiness_score : ℚ
deriving DecidableEq

/-- overlap_utils.opportunity_score: weighted sum over the five opportunity
attributes, each read with `record.get(attr, 0)`. -/
def opportunity_score (w : OpportunityWeights) (r : CrossbeamRecord) : ℚ :=
  r.opportunity_size_score.getD 0 * w.opportunity_size +
  r.relationship_status_score.getD 0 * w.relationship_status +
  r.engagement_score_score.getD 0 * w.engagement_score +
  r.opportunity_stage_score.getD 0 * w.opportunity_stage +
  r.winnability_score.getD 0 * w.winnability

/-- overlap_utils.partner_score: weighted sum over the three partner
attributes. -/
def partner_score (w : PartnerWeights) (r : CrossbeamRecord) : ℚ :=
  r.relationship_strength_score.getD 0 * w.relationship_strength_score +
  r.recent_deal_support_score.getD 0 * w.recent_deal_support +
  r.stickiness_score.getD 0 * w.stickiness_score

/-- overlap_utils.get_logo_potential: `record.get('logo_potential', False)`
used in boolean position. -/
def get_logo_potential (r : CrossbeamRecord) : Bool :=
  r.logo_potential.getD false

/-- overlap_utils.get_partner_champion_flag. -/
def get_partner_champion_flag (r : CrossbeamRecord) : Bool :=
  r.partner_champion_flagged.getD false

/-- The `priority_level` strings produced by `calculate_priority_score`. -/
inductive PriorityLevel where
  | LOGO_POTENTIAL
  | SCORED
deriving DecidableEq

/-- OverlapQualifier.calculate_priority_score: logo potential is a hard
override to 5; otherwise the Python code takes the average of the two section
scores when both are truthy (nonzero) and `max(o_score, pa_score, 0)`
otherwise. -/
def calculate_priority_score (ow : OpportunityWeights) (pw : PartnerWeights)
    (r : CrossbeamRecord) : ℚ × PriorityLevel :=
  if get_logo_potential r then (5, PriorityLevel.LOGO_POTENTIAL)
  else if opportunity_score ow r ≠ 0 ∧ partner_score pw r ≠ 0 then
    ((opportunity_score ow r + partner_score pw r) / 2, PriorityLevel.SCORED)
  else (max (opportunity_score ow r) (max (partner_score pw r) 0), PriorityLevel.SCORED)

/-- OverlapQualifier.should_process_overlap: qualify when the score is at
least 1.0 or the record has logo potential. -/
def should_process_overlap (ow : OpportunityWeights) (pw : PartnerWeights)
    (r : CrossbeamRecord) : Bool :=
  decide (1 ≤ (calculate_priority_score ow pw r).1) || get_logo_potential r

/-- A record whose eight numeric attributes all lie in [0, 5] (the ranges the
specification assigns to opportunity and partner attributes), reading a
missing attribute as 0 exactly as the code does. -/
def attrs_in_range (r : CrossbeamRecord) : Prop :=
  (0 ≤ r.opportunity_size_score.getD 0 ∧ r.opportunity_size_score.getD 0 ≤ 5) ∧
  (0 ≤ r.relationship_status_score.getD 0 ∧ r.relationship_status_score.getD 0 ≤ 5) ∧
  (0 ≤ r.engagement_score_score.getD 0 ∧ r.engagement_score_score.getD 0 ≤ 5) ∧
  (0 ≤ r.opportunity_stage_score.getD 0 ∧ r.opportunity_stage_score.getD 0 ≤ 5) ∧
  (0 ≤ r.winnability_score.getD 0 ∧ r.winnability_score.getD 0 ≤ 5) ∧
  (0 ≤ r.relationship_strength_score.getD 0 ∧ r.relationship_strength_score.getD 0 ≤ 5) ∧
  (0 ≤ r.recent_deal_support_score.getD 0 ∧ r.recent_deal_support_score.getD 0 ≤ 5) ∧
  (0 ≤ r.stickiness_score.getD 0 ∧ r.stickiness_score.getD 0 ≤ 5)

/-- A weight configuration with nonnegative weights whose per-section sums are
at most 1. -/
def weights_admissible (ow : OpportunityWeights) (pw : PartnerWeights) : Prop :=
  0 ≤ ow.opportunity_size ∧ 0 ≤ ow.relationship_status ∧ 0 ≤ ow.engagement_score ∧
  0 ≤ ow.opportunity_stage ∧ 0 ≤ ow.winnability ∧
  ow.opportunity_size + ow.relationship_status + ow.engagement_score +
    ow.opportunity_stage + ow.winnability ≤ 1 ∧
  0 ≤ pw.relationship_strength_score ∧ 0 ≤ pw.recent_deal_support ∧
  0 ≤ pw.stickiness_score ∧
  pw.relationship_strength_score + pw.recent_deal_support + pw.stickiness_score ≤ 1

/-- Formalisation of the specification phrase defining when a section score is
computable: the (always non-empty) attribute set has at least one positive
weight or raw value — written from the spec wording, to be compared with the
code's actual branch condition. -/
def opportunity_computable_spec (ow : OpportunityWeights) (r : CrossbeamRecord) : Prop :=
  0 < ow.opportunity_size ∨ 0 < ow.relationship_status ∨ 0 < ow.engagement_score ∨
  0 < ow.opportunity_stage ∨ 0 < ow.winnability ∨
  0 < r.opportunity_size_score.getD 0 ∨ 0 < r.relationship_status_score.getD 0 ∨
  0 < r.engagement_score_score.getD 0 ∨ 0 < r.opportunity_stage_score.getD 0 ∨
  0 < r.winnability_score.getD 0

/-- Partner-side counterpart of `opportunity_computable_spec`, written from
the spec wording. -/
def partner_computable_spec (pw : PartnerWeights) (r : CrossbeamRecord) : Prop :=
  0 < pw.relationship_strength_score ∨ 0 < pw.recent_deal_support ∨
  0 < pw.stickiness_score ∨
  0 < r.relationship_strength_score.getD 0 ∨ 0 < r.recent_deal_support_score.getD 0 ∨
  0 < r.stickiness_score.getD 0

lemma attr_term_bounds {a w : ℚ} (h0 : 0 ≤ a) (h5 : a ≤ 5) (hw : 0 ≤ w) :
    0 ≤ a * w ∧ a * w ≤ 5 * w :=
  ⟨mul_nonneg h0 hw, mul_le_mul_of_nonneg_right h5 hw⟩

lemma opportunity_score_bounds {ow : OpportunityWeights} {pw : PartnerWeights}
    {r : CrossbeamRecord} (ha : attrs_in_range r) (hw : weights_admissible ow pw) :
    0 ≤ opportunity_score ow r ∧ opportunity_score ow r ≤ 5 := by
  obtain ⟨⟨a1l, a1u⟩, ⟨a2l, a2u⟩, ⟨a3l, a3u⟩, ⟨a4l, a4u⟩, ⟨a5l, a5u⟩, _⟩ := ha
  obtain ⟨w1, w2, w3, w4, w5, hsum, _⟩ := hw
  obtain ⟨t1l, t1u⟩ := attr_term_bounds a1l a1u w1
  obtain ⟨t2l, t2u⟩ := attr_term_bounds a2l a2u w2
  obtain ⟨t3l, t3u⟩ := attr_term_bounds a3l a3u w3
  obtain ⟨t4l, t4u⟩ := attr_term_bounds a4l a4u w4
  obtain ⟨t5l, t5u⟩ := attr_term_bounds a5l a5u w5
  unfold opportunity_score
  constructor <;> linarith

lemma partner_score_bounds {ow : OpportunityWeights} {pw : PartnerWeights}
    {r : CrossbeamRecord} (ha : attrs_in_range r) (hw : weights_admissible ow pw) :
    0 ≤ partner_score pw r ∧ partner_score pw r ≤ 5 := by
  obtain ⟨_, _, _, _, _, ⟨a1l, a1u⟩, ⟨a2l, a2u⟩, ⟨a3l, a3u⟩⟩ := ha
  obtain ⟨_, _, _, _, _, _, w1, w2, w3, hsum⟩ := hw
  obtain ⟨t1l, t1u⟩ := attr_term_bounds a1l a1u w1
  obtain ⟨t2l, t2u⟩ := attr_term_bounds a2l a2u w2
  obtain ⟨t3l, t3u⟩ := attr_term_bounds a3l a3u w3
  unfold partner_score
  constructor <;> linarith

/-- A concrete record used by several witnesses: logo potential set, a few
attributes populated. -/
def sampleLogoRecord : CrossbeamRecord :=
  ⟨some "r1", some "Acme", some "P", some 3, none, none, none, none,
    none, none, some 4, some true, some false⟩

/-- A concrete non-logo record with all opportunity attributes at 5. -/
def sampleMaxRecord : CrossbeamRecord :=
  ⟨some "r1", some "Acme", some "P", some 5, some 5, some 5, some 5, some 5,
    none, none, none, some false, none⟩

/-- C6: for every record with logo potential set, the scoring engine returns
priority score 5 and level LOGO_POTENTIAL, whatever the other attributes and
the configured weights are. -/
theorem logo_override_score (ow : OpportunityWeights) (pw : PartnerWeights)
    (r : CrossbeamRecord) (h : get_logo_potential r = true) :
    calculate_priority_score ow pw r = (5, PriorityLevel.LOGO_POTENTIAL) := by
  simp [calculate_priority_score, h]

/-- Witness for `logo_override_score` at a concrete record with logo potential
and nonzero score-relevant attributes. -/
theorem logo_override_score_witness :
    calculate_priority_score ⟨1, 0, 0, 0, 0⟩ ⟨0, 0, 1⟩ sampleLogoRecord
      = (5, PriorityLevel.LOGO_POTENTIAL) :=
  logo_override_score ⟨1, 0, 0, 0, 0⟩ ⟨0, 0, 1⟩ sampleLogoRecord (by decide)

/-- C7 counterexample: with every opportunity weight configured to 1 (stored
weight 100) and all opportunity attributes at 5, a non-logo record gets
priority score 25, violating the claimed bound 5.  The claim quantifies over
every configured weight set, and nothing in the code restricts the section
sums. -/
theorem priority_score_unbounded_cex :
    (calculate_priority_score ⟨1, 1, 1, 1, 1⟩ ⟨0, 0, 0⟩ sampleMaxRecord).1 = 25 ∧
    ¬ (calculate_priority_score ⟨1, 1, 1, 1, 1⟩ ⟨0, 0, 0⟩ sampleMaxRecord).1 ≤ 5 := by
  norm_num [calculate_priority_score, opportunity_score, partner_score,
    get_logo_potential, sampleMaxRecord]

/-- C7 amended: when every attribute lies in [0,5] and the weights are
nonnegative with each section summing to at most 1, the priority score lies in
[0, 5]. -/
theorem priority_score_bounded (ow : OpportunityWeights) (pw : PartnerWeights)
    (r : CrossbeamRecord) (ha : attrs_in_range r) (hw : weights_admissible ow pw) :
    0 ≤ (calculate_priority_score ow pw r).1 ∧ (calculate_priority_score ow pw r).1 ≤ 5 := by
  obtain ⟨ol, ou⟩ := opportunity_score_bounds ha hw
  obtain ⟨pl, pu⟩ := partner_score_bounds ha hw
  unfold calculate_priority_score
  split_ifs with hlogo hboth
  · norm_num
  · dsimp only
    constructor <;> linarith
  · dsimp only
    refine ⟨le_trans (le_max_right _ 0) (le_max_right _ _), ?_⟩
    exact max_le ou (max_le pu (by norm_num))

/-- A concrete in-range non-logo record used by witnesses. -/
def sampleScoredRecord : CrossbeamRecord :=
  ⟨some "r1", some "Acme", some "P", some 4, some 2, none, none, none,
    some 3, none, some 5, some false, none⟩

/-- Witness for `priority_score_bounded` at a concrete in-range record and
admissible weight set. -/
theorem priority_score_bounded_witness :
    0 ≤ (calculate_priority_score ⟨1/2, 1/4, 0, 0, 0⟩ ⟨1/2, 0, 1/2⟩
      sampleScoredRecord).1 ∧
    (calculate_priority_score ⟨1/2, 1/4, 0, 0, 0⟩ ⟨1/2, 0, 1/2⟩
      sampleScoredRecord).1 ≤ 5 :=
  priority_score_bounded ⟨1/2, 1/4, 0, 0, 0⟩ ⟨1/2, 0, 1/2⟩ sampleScoredRecord
    (by norm_num [attrs_in_range, sampleScoredRecord])
    (by norm_num [weights_admissible])

/-- A concrete non-logo record whose opportunity attributes are all zero or
missing while a partner attribute is 4. -/
def sampleZeroOppRecord : CrossbeamRecord :=
  ⟨some "r1", some "Acme", some "P", some 0, none, none, none, none,
    none, none, some 4, some false, none⟩

/-- C8 counterexample: a non-logo record whose opportunity section is
computable in the specification's sense (a positive configured weight) but
whose opportunity score is 0: both sections are spec-computable, yet the code
returns the partner score 4 instead of the claimed average 2. -/
theorem average_rule_cex :
    opportunity_computable_spec ⟨1/2, 0, 0, 0, 0⟩ sampleZeroOppRecord ∧
    partner_computable_spec ⟨0, 0, 1⟩ sampleZeroOppRecord ∧
    (calculate_priority_score ⟨1/2, 0, 0, 0, 0⟩ ⟨0, 0, 1⟩ sampleZeroOppRecord).1 = 4 ∧
    (opportunity_score ⟨1/2, 0, 0, 0, 0⟩ sampleZeroOppRecord +
      partner_score ⟨0, 0, 1⟩ sampleZeroOppRecord) / 2 = 2 := by
  norm_num [opportunity_computable_spec, partner_computable_spec,
    calculate_priority_score, opportunity_score, partner_score,
    get_logo_potential, sampleZeroOppRecord]

/-- C8 amended: for a non-logo record whose section scores are nonnegative,
the final score is the average of the two section scores when both are
nonzero, the opportunity score when the partner score is zero, and the partner
score when the opportunity score is zero (hence 0 when both are zero) — the
code's branch tests nonzero scores, not the spec's computability. -/
theorem score_combination_rule (ow : OpportunityWeights) (pw : PartnerWeights)
    (r : CrossbeamRecord) (hlogo : get_logo_potential r = false)
    (ho : 0 ≤ opportunity_score ow r) (hp : 0 ≤ partner_score pw r) :
    (opportunity_score ow r ≠ 0 → partner_score pw r ≠ 0 →
      (calculate_priority_score ow pw r).1 =
        (opportunity_score ow r + partner_score pw r) / 2) ∧
    (partner_score pw r = 0 →
      (calculate_priority_score ow pw r).1 = opportunity_score ow r) ∧
    (opportunity_score ow r = 0 →
      (calculate_priority_score ow pw r).1 = partner_score pw r) := by
  refine ⟨fun h1 h2 => ?_, fun h2 => ?_, fun h1 => ?_⟩
  · simp [calculate_priority_score, hlogo, h1, h2]
  · simp only [calculate_priority_score, hlogo, Bool.false_eq_true, if_false, h2]
    simp only [ne_eq, not_true_eq_false, and_false, if_false]
    rw [max_comm (0 : ℚ), max_self]
    exact max_eq_left ho
  · simp only [calculate_priority_score, hlogo, Bool.false_eq_true, if_false, h1]
    simp only [ne_eq, not_true_eq_false, false_and, if_false]
    rw [max_eq_right (le_max_right _ _)]
    exact max_eq_left hp

/-- A concrete non-logo record with a single populated opportunity attribute
and no partner attributes. -/
def sampleOppOnlyRecord : CrossbeamRecord :=
  ⟨some "r1", some "Acme", some "P", some 4, none, none, none, none,
    none, none, none, some false, none⟩

/-- Witness for `score_combination_rule`: a record with opportunity score 2 and
partner score 0 gets final score 2. -/
theorem score_combination_rule_witness :
    (opportunity_score ⟨1/2, 0, 0, 0, 0⟩ sampleOppOnlyRecord ≠ 0 →
      partner_score ⟨0, 0, 0⟩ sampleOppOnlyRecord ≠ 0 →
      (calculate_priority_score ⟨1/2, 0, 0, 0, 0⟩ ⟨0, 0, 0⟩ sampleOppOnlyRecord).1 =
        (opportunity_score ⟨1/2, 0, 0, 0, 0⟩ sampleOppOnlyRecord +
          partner_score ⟨0, 0, 0⟩ sampleOppOnlyRecord) / 2) ∧
    (partner_score ⟨0, 0, 0⟩ sampleOppOnlyRecord = 0 →
      (calculate_priority_score ⟨1/2, 0, 0, 0, 0⟩ ⟨0, 0, 0⟩ sampleOppOnlyRecord).1 =
        opportunity_score ⟨1/2, 0, 0, 0, 0⟩ sampleOppOnlyRecord) ∧
    (opportunity_score ⟨1/2, 0, 0, 0, 0⟩ sampleOppOnlyRecord = 0 →
      (calculate_priority_score ⟨1/2, 0, 0, 0, 0⟩ ⟨0, 0, 0⟩ sampleOppOnlyRecord).1 =
        partner_score ⟨0, 0, 0⟩ sampleOppOnlyRecord) :=
  score_combination_rule ⟨1/2, 0, 0, 0, 0⟩ ⟨0, 0, 0⟩ sampleOppOnlyRecord
    (by decide)
    (by norm_num [opportunity_score, sampleOppOnlyRecord])
    (by norm_num [partner_score, sampleOppOnlyRecord])

/-- The dictionary built for each qualifying record inside `get_best_overlap`:
identifier, names, the context's priority score and the logo flag. -/
structure OverlapEntry where
  record_id : Option String
  record_name : String
  partner_record_name : String
  priority_score : ℚ
  logo_potential : Bool
deriving DecidableEq

/-- Builds the per-record entry of `get_best_overlap`, reading the name fields
with their "Unknown" defaults. -/
def mk_overlap_entry (ow : OpportunityWeights) (pw : PartnerWeights)
    (r : CrossbeamRecord) : OverlapEntry :=
  { record_id := r.id
    record_name := r.opportunity_name.getD "Unknown"
    partner_record_name := r.partner_name.getD "Unknown"
    priority_score := (calculate_priority_score ow pw r).1
    logo_potential := get_logo_potential r }

/-- The module-level mutable state of main.py read by selection and trigger:
the loaded records, the `resolved_state` and `processed_overlaps` dictionaries
(total maps defaulting to false, keyed like the Python dicts by the possibly
missing record id) and the active escalation pointer. -/
structure SysState where
  crossbeam_data : List CrossbeamRecord
  resolved_state : Option String → Bool
  processed_overlaps : Option String → Bool
  current_overlap_id : Option String

/-- The comprehension filter of `get_best_overlap`: the record qualifies, its
id differs from `exclude_id`, and it is neither resolved nor processed. -/
def overlap_filter (ow : OpportunityWeights) (pw : PartnerWeights) (st : SysState)
    (exclude_id : Option String) (r : CrossbeamRecord) : Bool :=
  should_process_overlap ow pw r && decide (r.id ≠ exclude_id) &&
    !(st.resolved_state r.id) && !(st.processed_overlaps r.id)

/-- The `all_overlaps` list of `get_best_overlap`, in record-store order. -/
def eligible_overlaps (ow : OpportunityWeights) (pw : PartnerWeights) (st : SysState)
    (exclude_id : Option String) : List OverlapEntry :=
  (st.crossbeam_data.filter (overlap_filter ow pw st exclude_id)).map
    (mk_overlap_entry ow pw)

/-- The Python sort key `(logo_potential, priority_score, record_name)`,
compared lexicographically. -/
def sort_key (e : OverlapEntry) : Lex (Bool × Lex (ℚ × String)) :=
  toLex (e.logo_potential, toLex (e.priority_score, e.record_name))

/-- Folds a list down to its first element of maximal key: the head of
Python's stable `sorted(..., reverse=True)`. -/
def pick_fold {α K : Type} [LinearOrder K] (f : α → K) (l : List α) (x : α) : α :=
  l.foldl (fun best c => if f best < f c then c else best) x

/-- `sorted(all_overlaps, key=..., reverse=True)[0]`, or none on the empty
list. -/
def pick_best : List OverlapEntry → Option OverlapEntry
  | [] => none
  | x :: xs => some (pick_fold sort_key xs x)

/-- main.get_best_overlap. -/
def get_best_overlap (ow : OpportunityWeights) (pw : PartnerWeights) (st : SysState)
    (exclude_id : Option String) : Option OverlapEntry :=
  pick_best (eligible_overlaps ow pw st exclude_id)

lemma pick_fold_spec {α K : Type} [LinearOrder K] (f : α → K) (l : List α) :
    ∀ x : α,
      (pick_fold f l x = x ∨ pick_fold f l x ∈ l) ∧
      f x ≤ f (pick_fold f l x) ∧
      ∀ y ∈ l, f y ≤ f (pick_fold f l x) := by
  induction l with
  | nil => intro x; refine ⟨Or.inl rfl, le_refl _, by simp⟩
  | cons c t ih =>
    intro x
    have hstep : pick_fold f (c :: t) x = pick_fold f t (if f x < f c then c else x) := by
      simp [pick_fold, List.foldl_cons]
    obtain ⟨hmem, hge, hall⟩ := ih (if f x < f c then c else x)
    rw [hstep]
    refine ⟨?_, ?_, ?_⟩
    · rcases hmem with h | h
      · rw [h]
        split_ifs with hc
        · exact Or.inr (List.mem_cons_self _ _)
        · exact Or.inl rfl
      · exact Or.inr (List.mem_cons_of_mem _ h)
    · refine le_trans ?_ hge
      split_ifs with hc
      · exact le_of_lt hc
      · exact le_refl _
    · intro y hy
      rcases List.mem_cons.mp hy with rfl | hy
      · refine le_trans ?_ hge
        split_ifs with hc
        · exact le_refl _
        · exact le_of_not_lt hc
      · exact hall y hy

lemma pick_best_eq_some {l : List OverlapEntry} {b : OverlapEntry}
    (h : pick_best l = some b) : b ∈ l ∧ ∀ y ∈ l, sort_key y ≤ sort_key b := by
  cases l with
  | nil => simp [pick_best] at h
  | cons x xs =>
    obtain ⟨hmem, hge, hall⟩ := pick_fold_spec sort_key xs x
    have hb : b = pick_fold sort_key xs x := by
      simpa [pick_best] using h.symm
    subst hb
    refine ⟨?_, ?_⟩
    · rcases hmem with h | h
      · rw [h]; exact List.mem_cons_self _ _
      · exact List.mem_cons_of_mem _ h
    · intro y hy
      rcases List.mem_cons.mp hy with rfl | hy
      · exact hge
      · exact hall y hy

lemma sort_key_le_components {x b : OverlapEntry} (h : sort_key x ≤ sort_key b) :
    (x.logo_potential = true → b.logo_potential = true) ∧
    (x.logo_potential = b.logo_potential → x.priority_score ≤ b.priority_score) ∧
    (x.logo_potential = b.logo_potential → x.priority_score = b.priority_score →
      x.record_name ≤ b.record_name) := by
  rw [sort_key, sort_key, Prod.Lex.le_iff] at h
  dsimp only at h
  rcases h with h | ⟨heq, h2⟩
  · rw [Bool.lt_iff] at h
    obtain ⟨hx, hb⟩ := h
    refine ⟨fun _ => hb, fun hl => ?_, fun hl _ => ?_⟩
    · rw [hx, hb] at hl; cases hl
    · rw [hx, hb] at hl; cases hl
  · rw [Prod.Lex.le_iff] at h2
    dsimp only at h2
    refine ⟨fun hx => heq ▸ hx, fun _ => ?_, fun _ hs => ?_⟩
    · rcases h2 with h2 | ⟨_, _⟩
      · exact le_of_lt h2
      · exact le_of_eq (by assumption)
    · rcases h2 with h2 | ⟨_, hn⟩
      · exact absurd (hs ▸ h2) (lt_irrefl _)
      · exact hn

lemma eligible_mem_props {ow : OpportunityWeights} {pw : PartnerWeights}
    {st : SysState} {ex : Option String} {b : OverlapEntry}
    (h : b ∈ eligible_overlaps ow pw st ex) :
    b.record_id ≠ ex ∧ st.resolved_state b.record_id = false ∧
      st.processed_overlaps b.record_id = false := by
  rw [eligible_overlaps] at h
  obtain ⟨r, hr, rfl⟩ := List.mem_map.mp h
  obtain ⟨_, hf⟩ := List.mem_filter.mp hr
  rw [overlap_filter] at hf
  simp only [Bool.and_eq_true, decide_eq_true_eq, Bool.not_eq_true'] at hf
  exact ⟨hf.1.1.2, hf.1.2, hf.2⟩

/-- C4: on a non-empty eligible set, `get_best_overlap` returns an eligible
entry maximal for the descending key (logo_potential, priority_score,
record_name): an eligible logo entry forces the winner to have the logo flag,
within the winner's logo bucket no eligible entry has a strictly higher score,
and on a score tie within the bucket no eligible entry has a
reverse-lexicographically greater (that is, lexicographically greater) name. -/
theorem selector_returns_maximum (ow : OpportunityWeights) (pw : PartnerWeights)
    (st : SysState) (ex : Option String)
    (h : eligible_overlaps ow pw st ex ≠ []) :
    ∃ b, get_best_overlap ow pw st ex = some b ∧
      b ∈ eligible_overlaps ow pw st ex ∧
      ∀ x ∈ eligible_overlaps ow pw st ex,
        (x.logo_potential = true → b.logo_potential = true) ∧
        (x.logo_potential = b.logo_potential → x.priority_score ≤ b.priority_score) ∧
        (x.logo_potential = b.logo_potential → x.priority_score = b.priority_score →
          x.record_name ≤ b.record_name) := by
  rw [get_best_overlap]
  cases hl : eligible_overlaps ow pw st ex with
  | nil => exact absurd hl h
  | cons x xs =>
    have hp := pick_best_eq_some (l := x :: xs) (b := pick_fold sort_key xs x) rfl
    exact ⟨pick_fold sort_key xs x, rfl, hp.1,
      fun y hy => sort_key_le_components (hp.2 y hy)⟩

/-- C5: whatever the record store, tracker state and excludeId are, a returned
candidate never has the excluded id, is never resolved and never processed;
and when the eligible set is empty the selector returns none. -/
theorem selector_respects_eligibility (ow : OpportunityWeights) (pw : PartnerWeights)
    (st : SysState) (ex : Option String) :
    (∀ b, get_best_overlap ow pw st ex = some b →
      b.record_id ≠ ex ∧ st.resolved_state b.record_id = false ∧
        st.processed_overlaps b.record_id = false) ∧
    (eligible_overlaps ow pw st ex = [] → get_best_overlap ow pw st ex = none) := by
  constructor
  · intro b hb
    exact eligible_mem_props (pick_best_eq_some hb).1
  · intro h
    rw [get_best_overlap, h]
    rfl

/-- All-zero opportunity weights, used by concrete witness states. -/
def ow0 : OpportunityWeights := ⟨0, 0, 0, 0, 0⟩

/-- All-zero partner weights, used by concrete witness states. -/
def pw0 : PartnerWeights := ⟨0, 0, 0⟩

/-- Logo-potential record named Acme. -/
def recAcme : CrossbeamRecord :=
  ⟨some "a", some "Acme", some "P", none, none, none, none, none, none, none,
    none, some true, none⟩

/-- Logo-potential record named Zenith. -/
def recZenith : CrossbeamRecord :=
  ⟨some "c", some "Zenith", some "P", none, none, none, none, none, none, none,
    none, some true, none⟩

/-- State holding the Acme and Zenith records, nothing resolved or processed,
no active escalation. -/
def st4 : SysState := ⟨[recAcme, recZenith], fun _ => false, fun _ => false, none⟩

/-- The entry `get_best_overlap` builds for `recZenith`. -/
def entryZenith : OverlapEntry := ⟨some "c", "Zenith", "P", 5, true⟩

/-- The entry `get_best_overlap` builds for `recAcme`. -/
def entryAcme : OverlapEntry := ⟨some "a", "Acme", "P", 5, true⟩

lemma eligible_st4_eval :
    eligible_overlaps ow0 pw0 st4 none = [entryAcme, entryZenith] := by
  decide

lemma get_best_st4_eval :
    get_best_overlap ow0 pw0 st4 none = some entryZenith := by
  have hlt : sort_key entryAcme < sort_key entryZenith := by
    rw [sort_key, sort_key, Prod.Lex.lt_iff]
    refine Or.inr ⟨rfl, ?_⟩
    rw [Prod.Lex.lt_iff]
    refine Or.inr ⟨rfl, ?_⟩
    show "Acme" < "Zenith"
    simp
    decide
  rw [get_best_overlap, eligible_st4_eval, pick_best]
  simp [pick_fold, hlt]

/-- Witness for `selector_returns_maximum`: with eligible entries Acme and
Zenith tied on logo flag and score, the selector returns a maximal entry, and
that entry is Zenith (the reverse-lexicographically greater name). -/
theorem selector_returns_maximum_witness :
    eligible_overlaps ow0 pw0 st4 none ≠ [] ∧
    (∃ b, get_best_overlap ow0 pw0 st4 none = some b ∧
      b ∈ eligible_overlaps ow0 pw0 st4 none ∧
      ∀ x ∈ eligible_overlaps ow0 pw0 st4 none,
        (x.logo_potential = true → b.logo_potential = true) ∧
        (x.logo_potential = b.logo_potential → x.priority_score ≤ b.priority_score) ∧
        (x.logo_potential = b.logo_potential → x.priority_score = b.priority_score →
          x.record_name ≤ b.record_name)) ∧
    get_best_overlap ow0 pw0 st4 none = some entryZenith :=
  ⟨by rw [eligible_st4_eval]; simp,
    selector_returns_maximum ow0 pw0 st4 none (by rw [eligible_st4_eval]; simp),
    get_best_st4_eval⟩

/-- Logo-potential record with id "r". -/
def recR : CrossbeamRecord :=
  ⟨some "r", some "Rec", some "P", none, none, none, none, none, none, none,
    none, some true, none⟩

/-- State holding only `recR`, nothing resolved or processed. -/
def st5 : SysState := ⟨[recR], fun _ => false, fun _ => false, none⟩

/-- The entry `get_best_overlap` builds for `recR`. -/
def entryR : OverlapEntry := ⟨some "r", "Rec", "P", 5, true⟩

lemma get_best_st5_eval : get_best_overlap ow0 pw0 st5 none = some entryR := by
  decide

/-- Witness for `selector_respects_eligibility`: the concrete selected entry
for `st5` has a non-excluded id and is unresolved and unprocessed. -/
theorem selector_respects_eligibility_witness :
    get_best_overlap ow0 pw0 st5 none = some entryR ∧
    (entryR.record_id ≠ none ∧ st5.resolved_state entryR.record_id = false ∧
      st5.processed_overlaps entryR.record_id = false) :=
  ⟨get_best_st5_eval,
    (selector_respects_eligibility ow0 pw0 st5 none).1 entryR get_best_st5_eval⟩

/-- The record with every missing numeric attribute made an explicit 0, to
state that scoring reads a missing attribute as 0. -/
def fill_missing_attrs (r : CrossbeamRecord) : CrossbeamRecord :=
  { r with
    opportunity_size_score := some (r.opportunity_size_score.getD 0)
    relationship_status_score := some (r.relationship_status_score.getD 0)
    engagement_score_score := some (r.engagement_score_score.getD 0)
    opportunity_stage_score := some (r.opportunity_stage_score.getD 0)
    winnability_score := some (r.winnability_score.getD 0)
    relationship_strength_score := some (r.relationship_strength_score.getD 0)
    recent_deal_support_score := some (r.recent_deal_support_score.getD 0)
    stickiness_score := some (r.stickiness_score.getD 0) }

/-- A qualifying record with no id at all. -/
def recNoId : CrossbeamRecord :=
  ⟨none, some "NoId", some "P", none, none, none, none, none, none, none,
    none, some true, none⟩

/-- State holding only `recNoId`. -/
def st9 : SysState := ⟨[recNoId], fun _ => false, fun _ => false, none⟩

/-- C9 counterexample: when an excludeId is supplied, a record with a missing
identifier is not excluded from candidacy — the selector returns it, because
the only guard on the identifier is the comparison with excludeId. -/
theorem missing_id_selected_cex :
    get_best_overlap ow0 pw0 st9 (some "x") = some ⟨none, "NoId", "P", 5, true⟩ ∧
    (⟨none, "NoId", "P", 5, true⟩ : OverlapEntry).record_id = none := by
  constructor
  · decide
  · rfl

/-- C9 amended: scoring treats every missing attribute as 0 (filling the
missing attributes with explicit zeros changes no score), and a record with a
missing identifier is never returned when no excludeId is given (with an
excludeId set, such a record can be selected, as the counterexample shows);
the rest of the pass proceeds normally. -/
theorem missing_data_handling :
    (∀ (ow : OpportunityWeights) (pw : PartnerWeights) (r : CrossbeamRecord),
      opportunity_score ow (fill_missing_attrs r) = opportunity_score ow r ∧
      partner_score pw (fill_missing_attrs r) = partner_score pw r ∧
      calculate_priority_score ow pw (fill_missing_attrs r) =
        calculate_priority_score ow pw r) ∧
    (∀ (ow : OpportunityWeights) (pw : PartnerWeights) (st : SysState)
      (b : OverlapEntry),
      get_best_overlap ow pw st none = some b → b.record_id ≠ none) := by
  have ho : ∀ ow r, opportunity_score ow (fill_missing_attrs r) = opportunity_score ow r :=
    fun ow r => by simp [fill_missing_attrs, opportunity_score]
  have hp : ∀ pw r, partner_score pw (fill_missing_attrs r) = partner_score pw r :=
    fun pw r => by simp [fill_missing_attrs, partner_score]
  refine ⟨fun ow pw r => ⟨ho ow r, hp pw r, ?_⟩, fun ow pw st b hb => ?_⟩
  · have hl : get_logo_potential (fill_missing_attrs r) = get_logo_potential r := by
      simp [fill_missing_attrs, get_logo_potential]
    rw [calculate_priority_score, calculate_priority_score, hl, ho, hp]
  · exact (eligible_mem_props (pick_best_eq_some hb).1).1

/-- Witness for `missing_data_handling` at the concrete state `st5`: the
selected entry has a present identifier. -/
theorem missing_data_handling_witness :
    get_best_overlap ow0 pw0 st5 none = some entryR ∧ entryR.record_id ≠ none :=
  ⟨get_best_st5_eval,
    missing_data_handling.2 ow0 pw0 st5 entryR get_best_st5_eval⟩

/-- One internal team member as loaded into INTERNAL_TEAM; a `none` field
models a missing or null column, which `member.get(key)` reads as falsy. -/
structure TeamMember where
  name : String
  hierarchy : Option ℤ
  channel_id : Option String
  webhook_url : Option String
  max_message : Option ℤ
deriving DecidableEq

/-- Python truthiness test `not member.get(key)` for an optional string:
falsy when missing or empty. -/
def opt_str_falsy : Option String → Bool
  | none => true
  | some s => s == ""

/-- One sent message: receiving member, hierarchy level, and the 1-based
count passed to the composer (1 = main, n ≥ 2 = follow-up n−1). -/
structure SentMsg where
  member : String
  level : ℤ
  count : ℕ
deriving DecidableEq

/-- `max((member.hierarchy for members if numeric), default=0)`. -/
def maxHierarchy (team : List TeamMember) : ℤ :=
  match team.filterMap (fun m => m.hierarchy) with
  | [] => 0
  | h :: t => t.foldl max h

/-- The messages the inner loop schedules for one member at one tier: none
when `max_message < 1` or the webhook/channel is falsy, otherwise the
`max_message` messages main, followup1, ... in order. -/
def member_messages (m : TeamMember) (level : ℤ) : List SentMsg :=
  if m.max_message.getD 0 < 1 then []
  else if opt_str_falsy m.webhook_url || opt_str_falsy m.channel_id then []
  else (List.range (m.max_message.getD 0).toNat).map (fun i => ⟨m.name, level, i + 1⟩)

/-- The messages scheduled for one hierarchy level: roster order over the
members whose hierarchy equals the level. -/
def level_messages (team : List TeamMember) (level : ℤ) : List SentMsg :=
  (team.filter (fun m => m.hierarchy == some level)).flatMap
    (fun m => member_messages m level)

/-- The full message plan of send_messages_with_gap: levels 1..max_hierarchy
ascending, members in roster order, each member's bounded message list. -/
def message_plan (team : List TeamMember) : List SentMsg :=
  (List.range (maxHierarchy team).toNat).flatMap
    (fun i => level_messages team ((i : ℤ) + 1))

/-- The poll-and-send loop of send_messages_with_gap over the plan: before
each send the resolved flag of the active record is read under the lock
(`sched t` is its value at the t-th poll, t = messages sent so far); if true
the loop clears the active pointer and returns at once, otherwise it sends.
The completion path also clears the active pointer. -/
def run_messages (sched : ℕ → Bool) : ℕ → List SentMsg → List SentMsg × Option String
  | _, [] => ([], none)
  | t, msg :: rest =>
    if sched t then ([], none)
    else
      let res := run_messages sched (t + 1) rest
      (msg :: res.1, res.2)

/-- send_messages_with_gap: the messages actually sent for one escalation run
and the final active-escalation pointer. -/
def run_escalation (team : List TeamMember) (sched : ℕ → Bool) :
    List SentMsg × Option String :=
  run_messages sched 0 (message_plan team)

lemma run_messages_active (sched : ℕ → Bool) :
    ∀ (plan : List SentMsg) (t : ℕ), (run_messages sched t plan).2 = none := by
  intro plan
  induction plan with
  | nil => intro t; rfl
  | cons msg rest ih =>
    intro t
    rw [run_messages]
    split_ifs
    · rfl
    · exact ih (t + 1)

lemma run_messages_never (plan : List SentMsg) :
    ∀ t : ℕ, run_messages (fun _ => false) t plan = (plan, none) := by
  induction plan with
  | nil => intro t; rfl
  | cons msg rest ih =>
    intro t
    rw [run_messages, if_neg (by simp)]
    simp [ih (t + 1)]

lemma run_messages_len (sched : ℕ → Bool) :
    ∀ (plan : List SentMsg) (t0 t : ℕ), t0 ≤ t → sched t = true →
      (run_messages sched t0 plan).1.length ≤ t - t0 := by
  intro plan
  induction plan with
  | nil => intro t0 t _ _; simp [run_messages]
  | cons msg rest ih =>
    intro t0 t hle hres
    rw [run_messages]
    split_ifs with h0
    · simp
    · have hne : t0 ≠ t := fun he => by rw [he, hres] at h0; exact h0 rfl
      have h1 : t0 + 1 ≤ t := by omega
      have := ih (t0 + 1) t h1 hres
      simp only [List.length_cons]
      omega

lemma run_messages_prefix (sched : ℕ → Bool) :
    ∀ (plan : List SentMsg) (t : ℕ), ∃ k, (run_messages sched t plan).1 = plan.take k := by
  intro plan
  induction plan with
  | nil => intro t; exact ⟨0, rfl⟩
  | cons msg rest ih =>
    intro t
    rw [run_messages]
    split_ifs
    · exact ⟨0, rfl⟩
    · obtain ⟨k, hk⟩ := ih (t + 1)
      exact ⟨k + 1, by simp [hk]⟩

/-- C2: whenever the resolved flag reads true at poll boundary t, the whole
run sends at most t messages — nothing at or past that poll anywhere in the
hierarchy — and the active-escalation pointer ends cleared. -/
theorem runner_halts_when_resolved (team : List TeamMember) (sched : ℕ → Bool)
    (t : ℕ) (h : sched t = true) :
    (run_escalation team sched).1.length ≤ t ∧ (run_escalation team sched).2 = none := by
  constructor
  · have := run_messages_len sched (message_plan team) 0 t (Nat.zero_le t) h
    simpa [run_escalation] using this
  · exact run_messages_active sched (message_plan team) 0

/-- Tier-1 member X with three allowed messages. -/
def memberX : TeamMember := ⟨"X", some 1, some "cx", some "wx", some 3⟩

/-- Tier-2 member Y with one allowed message. -/
def memberY : TeamMember := ⟨"Y", some 2, some "cy", some "wy", some 1⟩

/-- The two-tier roster of the specification scenario. -/
def teamXY : List TeamMember := [memberX, memberY]

/-- Witness for `runner_halts_when_resolved`: with resolution observed from
the second poll on, the run over the X/Y roster sends exactly the single
message X-main and clears the active pointer. -/
theorem runner_halts_when_resolved_witness :
    (run_escalation teamXY (fun t => decide (1 ≤ t))).1.length ≤ 1 ∧
    (run_escalation teamXY (fun t => decide (1 ≤ t))).2 = none ∧
    (run_escalation teamXY (fun t => decide (1 ≤ t))).1 = [⟨"X", 1, 1⟩] :=
  ⟨(runner_halts_when_resolved teamXY (fun t => decide (1 ≤ t)) 1 (by decide)).1,
    (runner_halts_when_resolved teamXY (fun t => decide (1 ≤ t)) 1 (by decide)).2,
    by decide⟩

lemma member_messages_name (m : TeamMember) (l : ℤ) :
    ∀ s ∈ member_messages m l, s.member = m.name := by
  intro s hs
  rw [member_messages] at hs
  split_ifs at hs
  · simp at hs
  · simp at hs
  · obtain ⟨i, _, rfl⟩ := List.mem_map.mp hs
    rfl

lemma member_messages_filter_name (m2 m : TeamMember) (l : ℤ) :
    (member_messages m2 l).filter (fun s => s.member == m.name) =
      if (m2.name == m.name) = true then member_messages m2 l else [] := by
  by_cases h : m2.name = m.name
  · rw [if_pos (by simpa using h)]
    exact List.filter_eq_self.mpr fun s hs => by
      simp [member_messages_name m2 l s hs, h]
  · rw [if_neg (by simpa using h)]
    exact List.filter_eq_nil_iff.mpr fun s hs => by
      simp [member_messages_name m2 l s hs, h]

lemma no_name_flatMap (m : TeamMember) :
    ∀ (tl : List TeamMember), tl.filter (fun m2 => m2.name == m.name) = [] →
      ∀ l : ℤ, ((tl.filter (fun m2 => m2.hierarchy == some l)).flatMap
        (fun m2 => if (m2.name == m.name) = true then member_messages m2 l else [])) = [] := by
  intro tl
  induction tl with
  | nil => intro _ l; rfl
  | cons h t ih =>
    intro hf l
    rw [List.filter_cons] at hf
    by_cases hn : (h.name == m.name) = true
    · rw [if_pos hn] at hf; cases hf
    · rw [if_neg hn] at hf
      rw [List.filter_cons]
      split_ifs with hh
      · rw [List.flatMap_cons, if_neg hn, List.nil_append]
        exact ih hf l
      · exact ih hf l

lemma level_messages_cons (h : TeamMember) (t : List TeamMember) (l : ℤ) :
    level_messages (h :: t) l =
      (if (h.hierarchy == some l) = true then member_messages h l else []) ++
        level_messages t l := by
  rw [level_messages, level_messages, List.filter_cons]
  split_ifs with hh
  · rw [List.flatMap_cons]
  · rw [List.nil_append]

lemma level_filter_name (m : TeamMember) :
    ∀ (tl : List TeamMember), tl.filter (fun m2 => m2.name == m.name) = [m] →
      ∀ l : ℤ, (level_messages tl l).filter (fun s => s.member == m.name) =
        if (m.hierarchy == some l) = true then member_messages m l else [] := by
  intro tl
  induction tl with
  | nil => intro hf _; simp at hf
  | cons h t ih =>
    intro hf l
    rw [List.filter_cons] at hf
    by_cases hn : (h.name == m.name) = true
    · rw [if_pos hn] at hf
      injection hf with h1 h2
      rw [h1, level_messages, List.filter_cons, List.filter_flatMap]
      simp only [member_messages_filter_name _ m l]
      split_ifs with hh
      · rw [List.flatMap_cons, if_pos (by simp), no_name_flatMap m t h2 l,
          List.append_nil]
      · exact no_name_flatMap m t h2 l
    · rw [if_neg hn] at hf
      rw [level_messages_cons, List.filter_append]
      have hcontrib : (if (h.hierarchy == some l) = true then member_messages h l
          else []).filter (fun s => s.member == m.name) = [] := by
        split_ifs with hh
        · rw [member_messages_filter_name h m l, if_neg hn]
        · rfl
      rw [hcontrib, List.nil_append]
      exact ih hf l

lemma plan_filter_name (team : List TeamMember) (m : TeamMember)
    (hf : team.filter (fun m2 => m2.name == m.name) = [m]) :
    (message_plan team).filter (fun s => s.member == m.name) =
      (List.range (maxHierarchy team).toNat).flatMap
        (fun i => if (m.hierarchy == some ((i : ℤ) + 1)) = true then
          member_messages m ((i : ℤ) + 1) else []) := by
  rw [message_plan, List.filter_flatMap]
  simp only [level_filter_name m team hf]

lemma flatMap_single_level (m : TeamMember) (lv : ℤ) (hm : m.hierarchy = some lv) :
    ∀ (n : ℕ), 1 ≤ lv → lv ≤ (n : ℤ) →
      (List.range n).flatMap
        (fun i => if (m.hierarchy == some ((i : ℤ) + 1)) = true then
          member_messages m ((i : ℤ) + 1) else []) = member_messages m lv := by
  intro n
  induction n with
  | zero =>
    intro h1 h2
    simp only [Nat.cast_zero] at h2
    omega
  | succ n ih =>
    intro h1 h2
    rw [List.range_succ, List.flatMap_append, List.flatMap_cons, List.flatMap_nil,
      List.append_nil]
    by_cases hle : lv ≤ (n : ℤ)
    · rw [ih h1 hle]
      have hne : ¬ (m.hierarchy == some ((n : ℤ) + 1)) = true := by
        rw [hm]
        simp only [beq_iff_eq, Option.some.injEq]
        omega
      rw [if_neg hne, List.append_nil]
    · have hlv : lv = (n : ℤ) + 1 := by
        push_cast at h2
        omega
      have hfirst : (List.range n).flatMap
          (fun i => if (m.hierarchy == some ((i : ℤ) + 1)) = true then
            member_messages m ((i : ℤ) + 1) else []) = [] := by
        apply List.flatMap_eq_nil_iff.mpr
        intro i hi
        rw [List.mem_range] at hi
        have hne : ¬ (m.hierarchy == some ((i : ℤ) + 1)) = true := by
          rw [hm]
          simp only [beq_iff_eq, Option.some.injEq]
          omega
        rw [if_neg hne]
      rw [hfirst, List.nil_append,
        if_pos (by rw [hm]; simp [hlv]), ← hlv]

/-- C3: with no resolution the runner sends exactly the full plan, tier by
tier in member order; and a member with a unique name at tier lv (within the
walked range), usable contact fields and max_message = k ≥ 1 receives exactly
the k messages (name, lv, 1), ..., (name, lv, k) in order — one main message
followed by the k−1 follow-ups — while a member with max_message < 1
contributes no message at all. -/
theorem member_receives_max_messages (team : List TeamMember) (m : TeamMember)
    (lv k : ℤ)
    (hf : team.filter (fun m2 => m2.name == m.name) = [m])
    (hh : m.hierarchy = some lv) (h1 : 1 ≤ lv) (h2 : lv ≤ maxHierarchy team)
    (hk : m.max_message = some k) (hk1 : 1 ≤ k)
    (hw : opt_str_falsy m.webhook_url = false)
    (hc : opt_str_falsy m.channel_id = false) :
    (run_escalation team (fun _ => false)).1 = message_plan team ∧
    (message_plan team).filter (fun s => s.member == m.name) =
      (List.range k.toNat).map (fun i => ⟨m.name, lv, i + 1⟩) := by
  constructor
  · rw [run_escalation, run_messages_never]
  · have hmax0 : (0 : ℤ) ≤ maxHierarchy team := by omega
    have hcast : lv ≤ (((maxHierarchy team).toNat : ℕ) : ℤ) := by
      rw [Int.toNat_of_nonneg hmax0]
      exact h2
    rw [plan_filter_name team m hf, flatMap_single_level m lv hh _ h1 hcast,
      member_messages, hk]
    simp only [Option.getD_some]
    rw [if_neg (by omega), if_neg (by rw [hw, hc]; simp)]

/-- Witness for `member_receives_max_messages` at the scenario roster (X at
tier 1 with max 3, Y at tier 2 with max 1): the full run with no resolution is
exactly X-main, X-f1, X-f2, Y-main, and X's filtered messages are counts
1, 2, 3. -/
theorem member_receives_max_messages_witness :
    ((run_escalation teamXY (fun _ => false)).1 = message_plan teamXY ∧
      (message_plan teamXY).filter (fun s => s.member == memberX.name) =
        (List.range (3 : ℤ).toNat).map (fun i => ⟨memberX.name, 1, i + 1⟩)) ∧
    (run_escalation teamXY (fun _ => false)).1 =
      [⟨"X", 1, 1⟩, ⟨"X", 1, 2⟩, ⟨"X", 1, 3⟩, ⟨"Y", 2, 1⟩] :=
  ⟨member_receives_max_messages teamXY memberX 1 3 (by decide) (by decide)
      (by decide) (by decide) (by decide) (by decide) (by decide) (by decide),
    by decide⟩

lemma member_messages_bad_contact {m : TeamMember}
    (hbad : (opt_str_falsy m.webhook_url || opt_str_falsy m.channel_id) = true) :
    ∀ l : ℤ, member_messages m l = [] := by
  intro l
  rw [member_messages]
  split_ifs with ha
  · rfl
  · rfl

lemma level_messages_erase (m : TeamMember)
    (hmm : ∀ l : ℤ, member_messages m l = []) :
    ∀ (tl : List TeamMember), tl.filter (fun m2 => m2.name == m.name) = [m] →
      ∀ l : ℤ, level_messages tl l = level_messages (tl.erase m) l := by
  intro tl
  induction tl with
  | nil => intro hf _; simp at hf
  | cons h t ih =>
    intro hf l
    rw [List.filter_cons] at hf
    by_cases hn : (h.name == m.name) = true
    · rw [if_pos hn] at hf
      injection hf with h1 h2
      subst h1
      rw [List.erase_cons_head, level_messages_cons]
      split_ifs with hh
      · rw [hmm l, List.nil_append]
      · rw [List.nil_append]
    · rw [if_neg hn] at hf
      have hne : ¬ (h == m) = true := by
        intro hcontra
        have heq : h = m := by simpa using hcontra
        rw [heq] at hn
        simp at hn
      rw [List.erase_cons_tail hne, level_messages_cons, level_messages_cons,
        ih hf l]

/-- C10: a member whose webhook_url or channel_id is missing or empty is sent
no message at any level whatever its max_message is, every level's message
list equals that of the roster without the member, and no run ever sends a
message carrying that member's (unique) name. -/
theorem member_without_contact_skipped (team : List TeamMember) (m : TeamMember)
    (hf : team.filter (fun m2 => m2.name == m.name) = [m])
    (hbad : (opt_str_falsy m.webhook_url || opt_str_falsy m.channel_id) = true) :
    (∀ l : ℤ, member_messages m l = []) ∧
    (∀ l : ℤ, level_messages team l = level_messages (team.erase m) l) ∧
    (∀ sched : ℕ → Bool,
      (run_escalation team sched).1.filter (fun s => s.member == m.name) = []) := by
  have hmm := member_messages_bad_contact hbad
  refine ⟨hmm, level_messages_erase m hmm team hf, fun sched => ?_⟩
  have hplan : (message_plan team).filter (fun s => s.member == m.name) = [] := by
    rw [plan_filter_name team m hf]
    apply List.flatMap_eq_nil_iff.mpr
    intro i _
    split_ifs
    · exact hmm _
    · rfl
  obtain ⟨kk, hkk⟩ := run_messages_prefix sched (message_plan team) 0
  have hsub := List.Sublist.filter (fun s => s.member == m.name)
    (List.take_sublist kk (message_plan team))
  rw [hplan] at hsub
  rw [run_escalation, hkk]
  exact List.sublist_nil.mp hsub

/-- Tier-1 member Z with five allowed messages but empty contact fields. -/
def memberZ : TeamMember := ⟨"Z", some 1, some "", some "", some 5⟩

/-- Roster containing the contactless member Z ahead of member X. -/
def team10 : List TeamMember := [memberZ, memberX]

/-- Witness for `member_without_contact_skipped`: member Z with empty webhook
and channel gets no message, dropping Z leaves tier 1 unchanged, and the full
run sends nothing named Z. -/
theorem member_without_contact_skipped_witness :
    member_messages memberZ 1 = [] ∧
    level_messages team10 1 = level_messages (team10.erase memberZ) 1 ∧
    (run_escalation team10 (fun _ => false)).1.filter
      (fun s => s.member == memberZ.name) = [] :=
  ⟨(member_without_contact_skipped team10 memberZ (by decide) (by decide)).1 1,
    (member_without_contact_skipped team10 memberZ (by decide) (by decide)).2.1 1,
    (member_without_contact_skipped team10 memberZ (by decide) (by decide)).2.2
      (fun _ => false)⟩

/-- main.trigger_overlap_processing, whose body runs under the global lock:
the guard `if current_overlap_id:` is a Python truthiness test, so the call is
a no-op exactly when the pointer holds a non-empty id (None and "" are falsy
and the code proceeds); otherwise the best overlap is selected and, if one
exists, marked unresolved and processed, the active pointer is set and a
runner started.  Returns the updated state and whether a runner was
started. -/
def trigger_overlap_processing (ow : OpportunityWeights) (pw : PartnerWeights)
    (st : SysState) (exclude_id : Option String) : SysState × Bool :=
  if opt_str_falsy st.current_overlap_id then
    match get_best_overlap ow pw st exclude_id with
    | none => (st, false)
    | some best =>
      ({ st with
          resolved_state := fun k => if k = best.record_id then false else st.resolved_state k
          processed_overlaps := fun k => if k = best.record_id then true else st.processed_overlaps k
          current_overlap_id := best.record_id }, true)
  else (st, false)

/-- N trigger() calls serialized by the global lock (any interleaving of N
concurrent callers executes their critical sections in some order), returning
the final state and how many runners were started. -/
def triggerN (ow : OpportunityWeights) (pw : PartnerWeights) :
    SysState → ℕ → SysState × ℕ
  | st, 0 => (st, 0)
  | st, n + 1 =>
    ((triggerN ow pw (trigger_overlap_processing ow pw st none).1 n).1,
      (if (trigger_overlap_processing ow pw st none).2 then 1 else 0) +
        (triggerN ow pw (trigger_overlap_processing ow pw st none).1 n).2)

lemma trigger_noop {ow : OpportunityWeights} {pw : PartnerWeights} {st : SysState}
    {x : String} (ex : Option String) (h : st.current_overlap_id = some x)
    (hx : x ≠ "") : trigger_overlap_processing ow pw st ex = (st, false) := by
  rw [trigger_overlap_processing, if_neg]
  rw [h]
  simp [opt_str_falsy, hx]

lemma triggerN_noop {ow : OpportunityWeights} {pw : PartnerWeights} :
    ∀ (n : ℕ) (st : SysState) (x : String), st.current_overlap_id = some x →
      x ≠ "" → triggerN ow pw st n = (st, 0) := by
  intro n
  induction n with
  | zero => intro st x _ _; rfl
  | succ n ih =>
    intro st x h hx
    rw [triggerN, trigger_noop none h hx]
    rw [ih st x h hx]
    rfl

/-- C1 amended: when the active pointer holds a truthy (non-empty) id,
trigger() returns without changing any state or starting a runner, for every
excludeId; and from a state with no active escalation whose best candidate has
a non-empty id, any positive number N of lock-serialized trigger() calls
starts exactly one runner, leaving the selected record processed and
unresolved and the active pointer set to its id.  (With an empty-string
candidate id the pointer stays falsy and a second runner can start, as the
counterexample shows.) -/
theorem trigger_single_flight (ow : OpportunityWeights) (pw : PartnerWeights)
    (st : SysState) :
    (∀ (ex : Option String) (x : String), st.current_overlap_id = some x →
      x ≠ "" → trigger_overlap_processing ow pw st ex = (st, false)) ∧
    (∀ (b : OverlapEntry) (N : ℕ), st.current_overlap_id = none →
      get_best_overlap ow pw st none = some b → b.record_id ≠ some "" → 1 ≤ N →
      (triggerN ow pw st N).2 = 1 ∧
      (triggerN ow pw st N).1.current_overlap_id = b.record_id ∧
      (triggerN ow pw st N).1.processed_overlaps b.record_id = true ∧
      (triggerN ow pw st N).1.resolved_state b.record_id = false) := by
  constructor
  · intro ex x h hx
    exact trigger_noop ex h hx
  · intro b N hcur hbest hne hN
    obtain ⟨n, rfl⟩ : ∃ n, N = n + 1 := ⟨N - 1, by omega⟩
    have hid : b.record_id ≠ none :=
      (eligible_mem_props (pick_best_eq_some hbest).1).1
    obtain ⟨s, hs⟩ := Option.ne_none_iff_exists'.mp hid
    have hsne : s ≠ "" := fun he => hne (by rw [hs, he])
    have hstep : trigger_overlap_processing ow pw st none =
        ({ st with
            resolved_state := fun k => if k = b.record_id then false else st.resolved_state k
            processed_overlaps := fun k => if k = b.record_id then true else st.processed_overlaps k
            current_overlap_id := b.record_id }, true) := by
      rw [trigger_overlap_processing, if_pos (by rw [hcur]; rfl), hbest]
    have hcur1 : (trigger_overlap_processing ow pw st none).1.current_overlap_id = some s := by
      rw [hstep]
      exact hs
    rw [triggerN, triggerN_noop n _ s hcur1 hsne, hstep]
    refine ⟨rfl, rfl, ?_, ?_⟩
    · simp
    · simp

/-- A state with an active escalation under a truthy id, used to witness the
no-op branch. -/
def stActive : SysState := ⟨[], fun _ => false, fun _ => false, some "busy"⟩

/-- Witness for `trigger_single_flight`: with an active non-empty id trigger
is a strict no-op, and three serialized trigger() calls on `st5` (no active
escalation, candidate `entryR` with id "r" available) start exactly one
runner, mark the record processed and unresolved and point the active slot at
it. -/
theorem trigger_single_flight_witness :
    trigger_overlap_processing ow0 pw0 stActive none = (stActive, false) ∧
    ((triggerN ow0 pw0 st5 3).2 = 1 ∧
      (triggerN ow0 pw0 st5 3).1.current_overlap_id = entryR.record_id ∧
      (triggerN ow0 pw0 st5 3).1.processed_overlaps entryR.record_id = true ∧
      (triggerN ow0 pw0 st5 3).1.resolved_state entryR.record_id = false) :=
  ⟨(trigger_single_flight ow0 pw0 stActive).1 none "busy" rfl (by decide),
    (trigger_single_flight ow0 pw0 st5).2 entryR 3 rfl get_best_st5_eval
      (by decide) (by decide)⟩

/-- A qualifying record whose id is the empty string; its name ranks last so
the selector prefers it. -/
def recEmptyId : CrossbeamRecord :=
  ⟨some "", some "ZZZ", some "P", none, none, none, none, none, none, none,
    none, some true, none⟩

/-- A second qualifying record with a normal id. -/
def recB : CrossbeamRecord :=
  ⟨some "b", some "AAA", some "P", none, none, none, none, none, none, none,
    none, some true, none⟩

/-- Idle state holding the empty-id record and a second candidate. -/
def stE : SysState := ⟨[recEmptyId, recB], fun _ => false, fun _ => false, none⟩

/-- The entry built for `recEmptyId`. -/
def entryZZZ : OverlapEntry := ⟨some "", "ZZZ", "P", 5, true⟩

/-- The entry built for `recB`. -/
def entryAAA : OverlapEntry := ⟨some "b", "AAA", "P", 5, true⟩

/-- The state after the first trigger on `stE`: the empty-string id is marked
processed and the active pointer holds the falsy value "". -/
def stE1 : SysState :=
  ⟨[recEmptyId, recB],
    fun k => if k = some "" then false else false,
    fun k => if k = some "" then true else false,
    some ""⟩

lemma get_best_stE_eval : get_best_overlap ow0 pw0 stE none = some entryZZZ := by
  have hnlt : ¬ sort_key entryZZZ < sort_key entryAAA := by
    intro hcon
    rw [sort_key, sort_key, Prod.Lex.lt_iff] at hcon
    dsimp only at hcon
    rcases hcon with h | ⟨_, h2⟩
    · exact absurd h (lt_irrefl true)
    · rw [Prod.Lex.lt_iff] at h2
      dsimp only at h2
      rcases h2 with h | ⟨_, h3⟩
      · exact absurd h (lt_irrefl (5 : ℚ))
      · have hns : ¬ ("ZZZ" < "AAA") := by
          simp
          decide
        exact hns h3
  have helig : eligible_overlaps ow0 pw0 stE none = [entryZZZ, entryAAA] := by
    decide
  rw [get_best_overlap, helig, pick_best]
  simp [pick_fold, hnlt]

/-- C1 counterexample: from the idle state `stE`, the first trigger selects
the empty-string id and sets the active pointer to the falsy "" — so with the
escalation active a second trigger is not a no-op: it starts another runner,
and two serialized trigger() calls issued from an idle state start two
runners. -/
theorem trigger_double_start_cex :
    stE.current_overlap_id = none ∧
    trigger_overlap_processing ow0 pw0 stE none = (stE1, true) ∧
    stE1.current_overlap_id = some "" ∧
    (trigger_overlap_processing ow0 pw0 stE1 none).2 = true ∧
    (triggerN ow0 pw0 stE 2).2 = 2 := by
  have h1 : trigger_overlap_processing ow0 pw0 stE none = (stE1, true) := by
    rw [trigger_overlap_processing,
      if_pos (show opt_str_falsy stE.current_overlap_id = true from rfl),
      get_best_stE_eval]
    rfl
  have hbest2 : get_best_overlap ow0 pw0 stE1 none = some entryAAA := by
    decide
  have h2 : (trigger_overlap_processing ow0 pw0 stE1 none).2 = true := by
    rw [trigger_overlap_processing,
      if_pos (show opt_str_falsy stE1.current_overlap_id = true from rfl),
      hbest2]
  refine ⟨rfl, h1, rfl, h2, ?_⟩
  rw [triggerN, triggerN, triggerN, h1]
  dsimp only
  rw [h2]
  rfl

end Crossbeam
